import Mathlib

/-!
Verification of the `specs-static` indexed storage container
(`src/lib.rs` and the grid helpers of `examples/basic.rs`).

The container is embedded shallowly:

* indices (`type Index = u32` in the source) are embedded as `Nat`; the
  container performs no arithmetic on them, so no wrap-around is needed
  except in the example's grid helper, where `% 2^32` is explicit;
* `hibitset::BitSet` is embedded as `Finset ℕ`;
* the backing `UnprotectedStorage<C>` is embedded as a slot map
  `Nat → Option C`, where `none` marks an uninitialized slot; its raw
  accessors are caller-guaranteed ("unsafe" in the source), so a raw read
  of an uninitialized slot — undefined behavior in the source — surfaces
  as `none` in the model;
* every mutating operation also returns the list of effects it performs on
  the presence set and the backing strategy, in program order, so that
  ordering statements of the specification can be settled.
-/

namespace SpecsStatic

/-- The index type: `type Index = u32` in the source. -/
abbrev Index := Nat

/-- The `Id` trait of `src/lib.rs` (lines 48-54): a type convertible to and
from a `u32`. Nothing requires `id` to be injective. -/
class Id (I : Type) where
  from_u32 : Index → I
  id : I → Index

/-- `hibitset::BitSet`, the presence set, embedded as a finite set of
indices. -/
abbrev BitSet := Finset ℕ

/-- `BitSet::contains`: membership test. -/
def BitSet.contains (s : BitSet) (n : Index) : Bool :=
  decide (n ∈ s)

/-- `BitSet::add`: inserts `n` and returns whether it was already a
member. -/
def BitSet.add (s : BitSet) (n : Index) : Bool × BitSet :=
  (decide (n ∈ s), insert n s)

/-- `BitSet::remove`: erases `n` and returns whether it was a member. -/
def BitSet.remove (s : BitSet) (n : Index) : Bool × BitSet :=
  (decide (n ∈ s), s.erase n)

/-- A backing `UnprotectedStorage<C>` value store: a slot map over the
index domain, `none` marking an uninitialized slot. -/
def Raw (C : Type) := Index → Option C

/-- Raw `UnprotectedStorage::get` (and `get_mut`): unchecked slot read,
caller-guaranteed to hit an initialized slot. -/
def Raw.get (d : Raw C) (n : Index) : Option C :=
  d n

/-- Raw `UnprotectedStorage::insert`: writes `v` into slot `n`. -/
def Raw.insert (d : Raw C) (n : Index) (v : C) : Raw C :=
  fun m => if m = n then some v else d m

/-- Raw `UnprotectedStorage::remove`: takes the value out of slot `n`
(caller-guaranteed initialized, in which case the first component is
`some`), leaving the slot uninitialized. -/
def Raw.remove (d : Raw C) (n : Index) : Option C × Raw C :=
  (d n, fun m => if m = n then none else d m)

/-- One effect performed against the presence set or the backing strategy.
`presenceAdd`/`presenceRemove` are the `BitSet` calls; the `raw…` effects
are the backing strategy's unchecked operations; `cleanCall` is the
strategy's cleanup operation, carrying the presence set passed to it. -/
inductive Event (C : Type) where
  | presenceAdd (n : Index)
  | presenceRemove (n : Index)
  | rawRemove (n : Index)
  | rawInsert (n : Index) (v : C)
  | cleanCall (live : BitSet)
  deriving DecidableEq

/-- Whether an effect is an operation of the backing strategy (as opposed
to a presence-set update). -/
def Event.isRaw : Event C → Bool
  | .rawRemove _ => true
  | .rawInsert _ _ => true
  | .cleanCall _ => true
  | _ => false

/-- The `Storage<C, D, I>` container of `src/lib.rs` (lines 63-69): one
backing store and one presence bitset. -/
structure Storage (C : Type) (I : Type) where
  data : Raw C
  bitset : BitSet

/-- The default-constructed storage (`#[derivative(Default)]`): default
backing store (all slots uninitialized) and empty bitset. -/
def Storage.empty : Storage C I :=
  ⟨fun _ => none, ∅⟩

/-- `Storage::get` (src/lib.rs lines 80-85): presence check on
`id.id()`, then the raw read; `none` when absent. -/
def Storage.get [Id I] (s : Storage C I) (i : I) : Option C :=
  match s.bitset.contains (Id.id i) with
  | true => Raw.get s.data (Id.id i)
  | false => none

/-- `Storage::get_mut` (src/lib.rs lines 90-95): same check as `get`; the
value the returned exclusive reference designates. The call itself does
not change the storage. -/
def Storage.get_mut [Id I] (s : Storage C I) (i : I) : Option C :=
  match s.bitset.contains (Id.id i) with
  | true => Raw.get s.data (Id.id i)
  | false => none

/-- `Storage::insert` (src/lib.rs lines 100-111), with its effect trace in
program order. The scrutinee `self.bitset.add(id.id())` is evaluated
first; on an already-present slot the previous value is then taken out
with the raw `remove`; in both branches the new value is finally written
with the raw `insert`. Returns (previous value, new storage, effects). -/
def Storage.insert [Id I] (s : Storage C I) (i : I) (v : C) :
    Option C × Storage C I × List (Event C) :=
  let n := Id.id i
  let a := s.bitset.add n
  match a.1 with
  | true =>
    let r := Raw.remove s.data n
    (r.1, ⟨(r.2).insert n v, a.2⟩,
      [Event.presenceAdd n, Event.rawRemove n, Event.rawInsert n v])
  | false =>
    (none, ⟨(s.data).insert n v, a.2⟩,
      [Event.presenceAdd n, Event.rawInsert n v])

/-- `Storage::remove` (src/lib.rs lines 114-119), with its effect trace:
`self.bitset.remove(id.id())` is evaluated first; only when it reports the
index present is the raw `remove` performed. -/
def Storage.remove [Id I] (s : Storage C I) (i : I) :
    Option C × Storage C I × List (Event C) :=
  let n := Id.id i
  let b := BitSet.remove s.bitset n
  match b.1 with
  | true =>
    let r := Raw.remove s.data n
    (r.1, ⟨r.2, b.2⟩, [Event.presenceRemove n, Event.rawRemove n])
  | false =>
    (none, ⟨s.data, b.2⟩, [Event.presenceRemove n])

/-- `impl Drop for Storage` (src/lib.rs lines 131-140): the destructor
performs exactly one effect, the backing strategy's `clean` call, passing
the final presence bitset. -/
def Storage.dropEvents (s : Storage C I) : List (Event C) :=
  [Event.cleanCall s.bitset]

/-- Modelled from the spec: the backing-strategy contract for `clean`
(spec §6) applied to "a strategy that records destructor calls" (spec §8):
`clean` releases (runs destructors for) exactly the indices the passed
presence set marks live; the recorded indices, in ascending order. -/
def cleanDestructorCalls (live : BitSet) : List Index :=
  live.sort (· ≤ ·)

/-- `impl Join for &Storage` — `open` (src/lib.rs lines 150-152): hands
out the presence mask and a read handle on the backing data. -/
def Storage.joinOpen (s : Storage C I) : BitSet × Raw C :=
  (s.bitset, s.data)

/-- `impl Join for &Storage` — `get` (src/lib.rs lines 154-156): the raw
unchecked read against the opened handle. -/
def joinGet (d : Raw C) (n : Index) : Option C :=
  Raw.get d n

/-- `impl Join for &mut Storage` — `open` (src/lib.rs lines 167-169):
the presence mask (still read-only) and the exclusive handle on the
backing data. -/
def Storage.joinOpenMut (s : Storage C I) : BitSet × Raw C :=
  (s.bitset, s.data)

/-- Modelled from the spec: the external iteration driver for a read join
over two storages (spec §4.2, the host framework's join iterator, not part
of this repository): it opens both participants, intersects the masks,
visits the intersection in ascending order, and calls each participant's
raw `get` at every visited index. -/
def joinReadPairs (a : Storage C I) (b : Storage C₂ I) :
    List (Index × Option C × Option C₂) :=
  let oa := a.joinOpen
  let ob := b.joinOpen
  ((oa.1 ∩ ob.1).sort (· ≤ ·)).map fun n => (n, joinGet oa.2 n, joinGet ob.2 n)

/-- Modelled from the spec: a write-join pass over a single storage (spec
§4.2 step 4 and §8): the driver opens the storage exclusively, visits the
mask's indices in ascending order once each, and through the exclusive
handle the consumer replaces each visited slot's value `old` with
`f n old`. -/
def writeJoinRun (s : Storage C I) (f : Index → C → C) : Storage C I :=
  let o := s.joinOpenMut
  ⟨(o.1.sort (· ≤ ·)).foldl
      (fun acc n =>
        match joinGet acc n with
        | some old => acc.insert n (f n old)
        | none => acc)
      o.2,
    s.bitset⟩

/-- A public operation on the storage, for reasoning about operation
sequences. -/
inductive Op (C I : Type) where
  | insert (i : I) (v : C)
  | remove (i : I)
  | get (i : I)
  | get_mut (i : I)

/-- The state transition of a single public operation (`get`/`get_mut`
take `&self`/`&mut self` but leave the state unchanged). -/
def Storage.step [Id I] (s : Storage C I) : Op C I → Storage C I
  | .insert i v => (s.insert i v).2.1
  | .remove i => (s.remove i).2.1
  | .get _ => s
  | .get_mut _ => s

/-- Running a sequence of public operations from a given state. -/
def Storage.run [Id I] (s : Storage C I) (ops : List (Op C I)) : Storage C I :=
  ops.foldl Storage.step s

/-- The `TileId` of `examples/basic.rs` (lines 31-42): a newtype over a
`u32`. -/
structure TileId where
  val : Index
  deriving DecidableEq

instance : Id TileId :=
  ⟨TileId.mk, TileId.val⟩

/-- The `Tiles` grid of `examples/basic.rs` (lines 9-12). -/
structure Tiles where
  width : Nat
  height : Nat

/-- `Tiles::iter_all` (examples/basic.rs lines 23-26): the half-open `u32`
range `0 .. width as u32 * height as u32 - 1` mapped into `TileId`s. The
`usize → u32` casts and the multiplication are reduced mod `2^32`; the
`- 1` is `u32` subtraction, which panics (debug) on underflow — the
underflow case `width * height = 0 (mod 2^32)` lies outside every claim,
and truncated `Nat` subtraction stands in for it. -/
def Tiles.iter_all (t : Tiles) : List TileId :=
  (List.range ((t.width % 2 ^ 32) * (t.height % 2 ^ 32) % 2 ^ 32 - 1)).map TileId.mk

/-- An identifier type whose `id` ignores part of the value: the `Id`
contract does not require injectivity, so two distinct identifiers can
share an index. -/
structure PairId where
  a : Index
  b : Index
  deriving DecidableEq

instance : Id PairId :=
  ⟨fun n => ⟨n, 0⟩, PairId.a⟩

/-- The claim-side predicate of C1, written from the claim's words: some
insert for an identifier with index `n` occurs at position `j` in the
sequence, and no remove for an identifier with index `n` occurs after it
(any such witness position is equivalent to taking the most recent
insert). -/
def insAt [Id I] (n : Index) : Op C I → Prop
  | .insert i _ => Id.id i = n
  | _ => False

/-- Whether an operation is a remove for an identifier with index `n`
(claim-side predicate of C1). -/
def remAt [Id I] (n : Index) : Op C I → Prop
  | .remove i => Id.id i = n
  | _ => False

/-- The claim side of C1: some insert for index `n` has occurred and has
not been followed by a remove for index `n`. -/
def liveSpec [Id I] (ops : List (Op C I)) (n : Index) : Prop :=
  ∃ j, ∃ h : j < ops.length, insAt n ops[j] ∧
    ∀ k, ∀ hk : k < ops.length, j < k → ¬ remAt n ops[k]

/-- The memory-safety invariant of the container (spec §3): every index
the presence set marks live holds an initialized value in the backing
strategy. -/
def StateInv (s : Storage C I) : Prop :=
  ∀ n, n ∈ s.bitset → (s.data n).isSome = true

/-- Storage A of the join-intersection scenario: present at {1, 2, 3}
with values 10, 20, 30, built with the public `insert`. -/
def joinA : Storage Nat TileId :=
  (((Storage.empty.insert ⟨1⟩ 10).2.1.insert ⟨2⟩ 20).2.1.insert ⟨3⟩ 30).2.1

/-- Storage B of the join-intersection scenario: present at {2, 3, 4}
with values 120, 130, 140, built with the public `insert`. -/
def joinB : Storage Nat TileId :=
  (((Storage.empty.insert ⟨2⟩ 120).2.1.insert ⟨3⟩ 130).2.1.insert ⟨4⟩ 140).2.1

/-- The storage of the write-join scenario: present at {1, 2, 3} with
values 100, 200, 300, built with the public `insert`. -/
def wjs : Storage Nat TileId :=
  (((Storage.empty.insert ⟨1⟩ 100).2.1.insert ⟨2⟩ 200).2.1.insert ⟨3⟩ 300).2.1

/-! ### Equation lemmas for the public operations -/

@[simp]
theorem Storage.get_eq [Id I] (s : Storage C I) (i : I) :
    s.get i = if Id.id i ∈ s.bitset then s.data (Id.id i) else none := by
  unfold Storage.get BitSet.contains Raw.get
  by_cases h : Id.id i ∈ s.bitset <;> simp [h]

@[simp]
theorem Storage.get_mut_eq [Id I] (s : Storage C I) (i : I) :
    s.get_mut i = if Id.id i ∈ s.bitset then s.data (Id.id i) else none := by
  unfold Storage.get_mut BitSet.contains Raw.get
  by_cases h : Id.id i ∈ s.bitset <;> simp [h]

@[simp]
theorem Storage.insert_fst [Id I] (s : Storage C I) (i : I) (v : C) :
    (s.insert i v).1 = if Id.id i ∈ s.bitset then s.data (Id.id i) else none := by
  unfold Storage.insert BitSet.add
  by_cases h : Id.id i ∈ s.bitset <;> simp [h, Raw.remove]

@[simp]
theorem Storage.insert_bitset [Id I] (s : Storage C I) (i : I) (v : C) :
    ((s.insert i v).2.1).bitset = Insert.insert (Id.id i) s.bitset := by
  unfold Storage.insert BitSet.add
  by_cases h : Id.id i ∈ s.bitset <;> simp [h]

@[simp]
theorem Storage.insert_data [Id I] (s : Storage C I) (i : I) (v : C) (m : Index) :
    ((s.insert i v).2.1).data m = if m = Id.id i then some v else s.data m := by
  unfold Storage.insert BitSet.add Raw.remove Raw.insert
  by_cases h : Id.id i ∈ s.bitset <;>
    by_cases hm : m = Id.id i <;> simp [h, hm]

theorem Storage.insert_events [Id I] (s : Storage C I) (i : I) (v : C) :
    (s.insert i v).2.2 =
      if Id.id i ∈ s.bitset then
        [Event.presenceAdd (Id.id i), Event.rawRemove (Id.id i),
          Event.rawInsert (Id.id i) v]
      else [Event.presenceAdd (Id.id i), Event.rawInsert (Id.id i) v] := by
  unfold Storage.insert BitSet.add
  by_cases h : Id.id i ∈ s.bitset <;> simp [h]

@[simp]
theorem Storage.remove_fst [Id I] (s : Storage C I) (i : I) :
    (s.remove i).1 = if Id.id i ∈ s.bitset then s.data (Id.id i) else none := by
  unfold Storage.remove BitSet.remove
  by_cases h : Id.id i ∈ s.bitset <;> simp [h, Raw.remove]

@[simp]
theorem Storage.remove_bitset [Id I] (s : Storage C I) (i : I) :
    ((s.remove i).2.1).bitset = s.bitset.erase (Id.id i) := by
  unfold Storage.remove BitSet.remove
  by_cases h : Id.id i ∈ s.bitset <;> simp [h]

@[simp]
theorem Storage.remove_data [Id I] (s : Storage C I) (i : I) (m : Index) :
    ((s.remove i).2.1).data m =
      if Id.id i ∈ s.bitset ∧ m = Id.id i then none else s.data m := by
  unfold Storage.remove BitSet.remove Raw.remove
  by_cases h : Id.id i ∈ s.bitset <;>
    by_cases hm : m = Id.id i <;> simp [h, hm]

theorem Storage.remove_events [Id I] (s : Storage C I) (i : I) :
    (s.remove i).2.2 =
      if Id.id i ∈ s.bitset then
        [Event.presenceRemove (Id.id i), Event.rawRemove (Id.id i)]
      else [Event.presenceRemove (Id.id i)] := by
  unfold Storage.remove BitSet.remove
  by_cases h : Id.id i ∈ s.bitset <;> simp [h]

/-- A concrete evaluation principle for `Finset.sort`: a nodup, ascending
list is the sorted enumeration of the finset of its elements. -/
theorem sort_eq_of_toFinset {l : List ℕ} {s : Finset ℕ} (h : l.toFinset = s)
    (hn : l.Nodup) (hs : l.Sorted (· ≤ ·)) : s.sort (· ≤ ·) = l := by
  subst h
  exact (List.toFinset_sort _ hn).mpr hs

/-! ### Claim C3: order of effects during insert on a present slot -/

/-- C3 counterexample: at the concrete input (storage with index 0 present
holding 1, `insert(0, 2)`), the effect sequence is presence add, then raw
remove, then raw insert — not the claimed "raw remove, then presence add,
then raw insert". -/
theorem C3_effect_order_counterexample :
    (((Storage.empty : Storage Nat TileId).insert ⟨0⟩ 1).2.1.insert ⟨0⟩ 2).2.2 =
        [Event.presenceAdd 0, Event.rawRemove 0, Event.rawInsert 0 2] ∧
      (((Storage.empty : Storage Nat TileId).insert ⟨0⟩ 1).2.1.insert ⟨0⟩ 2).2.2 ≠
        [Event.rawRemove 0, Event.presenceAdd 0, Event.rawInsert 0 2] := by
  decide

/-- C3 (amended): during `insert(i, v)` on a slot that is already present,
the sequence of effects is: first the presence set is marked added for
index `i.id()` (the `bitset.add` call, which also reports the prior
presence), then the previous value is extracted from the backing strategy
(raw remove) and returned, and finally the new value is written (raw
insert); in particular the presence-set update happens before the raw
write of the new value. -/
theorem C3_effect_order_amended [Id I] (s : Storage C I) (i : I) (v : C)
    (h : Id.id i ∈ s.bitset) :
    (s.insert i v).2.2 =
        [Event.presenceAdd (Id.id i), Event.rawRemove (Id.id i),
          Event.rawInsert (Id.id i) v] ∧
      (s.insert i v).1 = s.data (Id.id i) := by
  simp [Storage.insert_events, h]

/-- Witness for the amended C3 at a concrete input: index 0 is present
after an insert, and the second insert's effect trace is presence add, raw
remove, raw insert. -/
theorem C3_effect_order_amended_witness :
    Id.id (TileId.mk 0) ∈
        (((Storage.empty : Storage Nat TileId).insert ⟨0⟩ 1).2.1).bitset ∧
      ((((Storage.empty : Storage Nat TileId).insert ⟨0⟩ 1).2.1.insert ⟨0⟩ 2).2.2 =
          [Event.presenceAdd 0, Event.rawRemove 0, Event.rawInsert 0 2] ∧
        (((Storage.empty : Storage Nat TileId).insert ⟨0⟩ 1).2.1.insert ⟨0⟩ 2).1 =
          (((Storage.empty : Storage Nat TileId).insert ⟨0⟩ 1).2.1).data 0) :=
  ⟨by decide,
    C3_effect_order_amended ((Storage.empty : Storage Nat TileId).insert ⟨0⟩ 1).2.1
      ⟨0⟩ 2 (by decide)⟩

/-! ### Claim C6: destruction performs exactly one cleanup over the final
presence set -/

/-- C6: destroying a `Storage` performs exactly one effect — the backing
strategy's `clean` call, passed the final presence set — so a recording
strategy (spec §8) observes destructor calls at exactly the live indices:
after inserting at {0, 5, 9} with no removes, exactly three destructor
calls happen, at indices 0, 5 and 9. -/
theorem C6_cleanup_on_destruction (C I : Type) :
    (∀ s : Storage C I, s.dropEvents = [Event.cleanCall s.bitset]) ∧
      cleanDestructorCalls
          (((((Storage.empty : Storage Nat TileId).insert ⟨0⟩ 7).2.1.insert
                  ⟨5⟩ 8).2.1.insert ⟨9⟩ 9).2.1).bitset = [0, 5, 9] ∧
      (cleanDestructorCalls
          (((((Storage.empty : Storage Nat TileId).insert ⟨0⟩ 7).2.1.insert
                  ⟨5⟩ 8).2.1.insert ⟨9⟩ 9).2.1).bitset).length = 3 := by
  have hs :
      cleanDestructorCalls
          (((((Storage.empty : Storage Nat TileId).insert ⟨0⟩ 7).2.1.insert
                  ⟨5⟩ 8).2.1.insert ⟨9⟩ 9).2.1).bitset = [0, 5, 9] :=
    sort_eq_of_toFinset (by decide) (by decide) (by decide)
  exact ⟨fun s => rfl, hs, by rw [hs]; rfl⟩

/-! ### Claim C9: the example grid helper excludes the last cell -/

/-- C9: `Tiles::iter_all` on a `width × height` grid yields exactly the
identifiers `0` to `width*height - 2` (that is `width*height - 1`
identifiers), and the identifier `width*height - 1` (the last valid cell)
is never yielded. The hypotheses keep the `u32` casts, the product and
the `- 1` inside the machine domain (the `width*height = 0` case panics
in the source). -/
theorem C9_iter_all_excludes_last_cell (w h : Nat) (_h0 : 0 < w * h)
    (hw : w < 2 ^ 32) (hh : h < 2 ^ 32) (hwh : w * h < 2 ^ 32) :
    (Tiles.mk w h).iter_all = (List.range (w * h - 1)).map TileId.mk ∧
      (Tiles.mk w h).iter_all.length = w * h - 1 ∧
      (∀ k, TileId.mk k ∈ (Tiles.mk w h).iter_all ↔ k < w * h - 1) ∧
      TileId.mk (w * h - 1) ∉ (Tiles.mk w h).iter_all := by
  have he : (Tiles.mk w h).iter_all = (List.range (w * h - 1)).map TileId.mk := by
    unfold Tiles.iter_all
    rw [Nat.mod_eq_of_lt hw, Nat.mod_eq_of_lt hh, Nat.mod_eq_of_lt hwh]
  refine ⟨he, by simp [he], ?_, by simp [he, TileId.mk.injEq]⟩
  intro k
  simp [he, TileId.mk.injEq]

/-- Witness for C9 at the concrete 8×8 grid: 63 identifiers, `0` to `62`,
and the identifier 63 is never yielded. -/
theorem C9_iter_all_excludes_last_cell_witness :
    (0 < 8 * 8 ∧ 8 < 2 ^ 32 ∧ 8 < 2 ^ 32 ∧ 8 * 8 < 2 ^ 32) ∧
      ((Tiles.mk 8 8).iter_all = (List.range 63).map TileId.mk ∧
        (Tiles.mk 8 8).iter_all.length = 63 ∧
        (∀ k, TileId.mk k ∈ (Tiles.mk 8 8).iter_all ↔ k < 63) ∧
        TileId.mk 63 ∉ (Tiles.mk 8 8).iter_all) :=
  ⟨⟨by decide, by decide, by decide, by decide⟩,
    C9_iter_all_excludes_last_cell 8 8 (by decide) (by decide) (by decide)
      (by decide)⟩

/-! ### Claim C2: insert replaces the value and returns the previous one -/

/-- C2: for every identifier `i` and values `v₁`, `v₂`: after
`insert(i, v₁)`, a second call `insert(i, v₂)` returns `Some(v₁)`, and
afterwards `get(i)` returns `Some(v₂)`. -/
theorem C2_insert_replaces [Id I] (s : Storage C I) (i : I) (v₁ v₂ : C) :
    ((s.insert i v₁).2.1.insert i v₂).1 = some v₁ ∧
      ((s.insert i v₁).2.1.insert i v₂).2.1.get i = some v₂ := by
  simp

/-! ### Claim C7: removing an absent identifier is a no-op -/

/-- C7: for every identifier `i` absent from the presence set (never
inserted, or the most recent insert already removed), `remove(i)` returns
`None`, leaves the storage (presence set and backing data) unchanged, and
invokes no backing-strategy raw operation. -/
theorem C7_remove_absent_noop [Id I] (s : Storage C I) (i : I)
    (h : Id.id i ∉ s.bitset) :
    (s.remove i).1 = none ∧ (s.remove i).2.1 = s ∧
      ∀ e ∈ (s.remove i).2.2, e.isRaw = false := by
  refine ⟨by simp [h], ?_, ?_⟩
  · cases s with
    | mk d b =>
      simp only [Storage.remove, BitSet.remove]
      simp [h, Finset.erase_eq_self.mpr h]
  · simp [Storage.remove_events, h, Event.isRaw]

/-- Witness for C7 at a concrete input: index 3 is absent from the empty
storage, and the no-op conclusion holds there. -/
theorem C7_remove_absent_noop_witness :
    Id.id (TileId.mk 3) ∉ (Storage.empty : Storage Nat TileId).bitset ∧
      (((Storage.empty : Storage Nat TileId).remove ⟨3⟩).1 = none ∧
        ((Storage.empty : Storage Nat TileId).remove ⟨3⟩).2.1 = Storage.empty ∧
        ∀ e ∈ ((Storage.empty : Storage Nat TileId).remove ⟨3⟩).2.2,
          e.isRaw = false) :=
  ⟨by decide, C7_remove_absent_noop (Storage.empty : Storage Nat TileId) ⟨3⟩ (by decide)⟩

/-! ### Claim C8: insert-then-remove round trip -/

/-- C8: for every identifier `i` and value `v`, starting from a state
where `i` is absent: after `insert(i, v)`, `remove(i)` returns `Some(v)`,
and a subsequent `get(i)` returns `None`. -/
theorem C8_round_trip [Id I] (s : Storage C I) (i : I) (v : C)
    (_h : Id.id i ∉ s.bitset) :
    ((s.insert i v).2.1.remove i).1 = some v ∧
      ((s.insert i v).2.1.remove i).2.1.get i = none := by
  simp

/-- Witness for C8 at a concrete input: index 2 is absent from the empty
storage, and the round trip holds there. -/
theorem C8_round_trip_witness :
    Id.id (TileId.mk 2) ∉ (Storage.empty : Storage Nat TileId).bitset ∧
      ((((Storage.empty : Storage Nat TileId).insert ⟨2⟩ 11).2.1.remove ⟨2⟩).1
          = some 11 ∧
        (((Storage.empty : Storage Nat TileId).insert ⟨2⟩ 11).2.1.remove
              ⟨2⟩).2.1.get ⟨2⟩ = none) :=
  ⟨by decide, C8_round_trip (Storage.empty : Storage Nat TileId) ⟨2⟩ 11 (by decide)⟩

/-! ### Claim C10: the operations depend on an identifier only through
its `u32` index -/

/-- C10: every public operation (`get`, `get_mut`, `insert`, `remove`)
depends on its identifier argument only through `id()`: identifiers with
equal indices behave identically and address the same slot (after
`insert(i, v)`, `get(j)` returns `Some(v)`). -/
theorem C10_ops_depend_only_on_index [Id I] (s : Storage C I) (i j : I)
    (v : C) (h : Id.id i = Id.id j) :
    s.get i = s.get j ∧ s.get_mut i = s.get_mut j ∧
      s.insert i v = s.insert j v ∧ s.remove i = s.remove j ∧
      ((s.insert i v).2.1).get j = some v := by
  refine ⟨by simp [h], by simp [h], by simp [Storage.insert, h],
    by simp [Storage.remove, h], by simp [← h]⟩

/-- Witness for C10 at a concrete input: the distinct `PairId`s `⟨5, 1⟩`
and `⟨5, 2⟩` share the index 5, and the conclusion holds for them on the
empty storage. -/
theorem C10_ops_depend_only_on_index_witness :
    Id.id (PairId.mk 5 1) = Id.id (PairId.mk 5 2) ∧
      ((Storage.empty : Storage Nat PairId).get ⟨5, 1⟩
            = (Storage.empty : Storage Nat PairId).get ⟨5, 2⟩ ∧
        (Storage.empty : Storage Nat PairId).get_mut ⟨5, 1⟩
            = (Storage.empty : Storage Nat PairId).get_mut ⟨5, 2⟩ ∧
        (Storage.empty : Storage Nat PairId).insert ⟨5, 1⟩ 42
            = (Storage.empty : Storage Nat PairId).insert ⟨5, 2⟩ 42 ∧
        (Storage.empty : Storage Nat PairId).remove ⟨5, 1⟩
            = (Storage.empty : Storage Nat PairId).remove ⟨5, 2⟩ ∧
        (((Storage.empty : Storage Nat PairId).insert ⟨5, 1⟩ 42).2.1).get ⟨5, 2⟩
            = some 42) :=
  ⟨by decide, C10_ops_depend_only_on_index (Storage.empty : Storage Nat PairId) ⟨5, 1⟩ ⟨5, 2⟩ 42 (by decide)⟩

/-! ### Claim C4: a read join visits the ascending intersection -/

/-- The visited indices of a read join are the ascending enumeration of
the intersection of the two presence sets. -/
theorem joinReadPairs_map_fst [Id I] (a : Storage C I) (b : Storage C₂ I) :
    (joinReadPairs a b).map Prod.fst = (a.bitset ∩ b.bitset).sort (· ≤ ·) := by
  unfold joinReadPairs Storage.joinOpen
  simp only [List.map_map]
  exact List.map_id _

/-- C4: a read join over storages A and B visits exactly the indices
present in both presence sets, in ascending order, yielding at each the
values stored in A and B there; for A present at {1, 2, 3} and B present
at {2, 3, 4} it visits exactly {2, 3}. -/
theorem C4_read_join_intersection (C C₂ I : Type) [Id I] :
    (∀ (a : Storage C I) (b : Storage C₂ I),
        (joinReadPairs a b).map Prod.fst = (a.bitset ∩ b.bitset).sort (· ≤ ·) ∧
        List.Sorted (· ≤ ·) ((joinReadPairs a b).map Prod.fst) ∧
        (∀ n, n ∈ (joinReadPairs a b).map Prod.fst ↔
          n ∈ a.bitset ∧ n ∈ b.bitset) ∧
        ∀ p ∈ joinReadPairs a b, p.2.1 = a.data p.1 ∧ p.2.2 = b.data p.1) ∧
      joinReadPairs joinA joinB =
        [(2, some 20, some 120), (3, some 30, some 130)] := by
  constructor
  · intro a b
    refine ⟨joinReadPairs_map_fst a b, ?_, ?_, ?_⟩
    · rw [joinReadPairs_map_fst]
      exact Finset.sort_sorted _ _
    · intro n
      rw [joinReadPairs_map_fst]
      simp [Finset.mem_sort, Finset.mem_inter]
    · intro p hp
      simp only [joinReadPairs, Storage.joinOpen, List.mem_map] at hp
      obtain ⟨n, _, rfl⟩ := hp
      exact ⟨rfl, rfl⟩
  · have hs : (joinA.bitset ∩ joinB.bitset).sort (· ≤ ·) = [2, 3] :=
      sort_eq_of_toFinset (by decide) (by decide) (by decide)
    simp only [joinReadPairs, Storage.joinOpen]
    rw [hs]
    decide

/-- Witness for C4 at a concrete input: the pair visited at index 2 of the
{1,2,3}/{2,3,4} scenario carries exactly the values stored in A and B at
index 2. -/
theorem C4_read_join_intersection_witness :
    ((2, some 20, some 120) : Index × Option Nat × Option Nat) ∈
        joinReadPairs joinA joinB ∧
      (some 20 = joinA.data 2 ∧ some 120 = joinB.data 2) :=
  have hmem : ((2, some 20, some 120) : Index × Option Nat × Option Nat) ∈
      joinReadPairs joinA joinB := by
    rw [(C4_read_join_intersection Nat Nat TileId).2]
    decide
  ⟨hmem,
    ((C4_read_join_intersection Nat Nat TileId).1 joinA joinB).2.2.2
      (2, some 20, some 120) hmem⟩

/-! ### Claim C5: a write join mutates each visited slot independently -/

/-- The write-join fold leaves every slot it does not visit unchanged. -/
theorem writeJoin_foldl_untouched (f : Index → C → C) (l : List Index)
    (d : Raw C) (m : Index) (hm : m ∉ l) :
    (l.foldl
        (fun acc n =>
          match joinGet acc n with
          | some old => acc.insert n (f n old)
          | none => acc)
        d) m = d m := by
  induction l generalizing d with
  | nil => rfl
  | cons n l ih =>
    simp only [List.mem_cons, not_or] at hm
    rw [List.foldl_cons, ih _ hm.2]
    cases joinGet d n with
    | none => rfl
    | some old => simp [Raw.insert, hm.1]

/-- A write-join pass modifies no slot outside the presence set. -/
theorem writeJoinRun_data_of_not_mem (s : Storage C I) (f : Index → C → C)
    (m : Index) (hm : m ∉ s.bitset) :
    (writeJoinRun s f).data m = s.data m := by
  unfold writeJoinRun Storage.joinOpenMut
  exact writeJoin_foldl_untouched f _ s.data m
    (fun hc => hm ((Finset.mem_sort _).mp hc))

/-- C5: a write join over a single storage with presence {1, 2, 3},
writing `index * 10` into each visited slot in one pass, leaves
`get(1) = 10`, `get(2) = 20`, `get(3) = 30`, keeps the presence set, and
modifies no other slot. -/
theorem C5_write_join_disjoint :
    (writeJoinRun wjs (fun n _ => n * 10)).get ⟨1⟩ = some 10 ∧
      (writeJoinRun wjs (fun n _ => n * 10)).get ⟨2⟩ = some 20 ∧
      (writeJoinRun wjs (fun n _ => n * 10)).get ⟨3⟩ = some 30 ∧
      (writeJoinRun wjs (fun n _ => n * 10)).bitset = wjs.bitset ∧
      ∀ m, m ≠ 1 → m ≠ 2 → m ≠ 3 →
        (writeJoinRun wjs (fun n _ => n * 10)).data m = wjs.data m := by
  have hs : wjs.bitset.sort (· ≤ ·) = [1, 2, 3] :=
    sort_eq_of_toFinset (by decide) (by decide) (by decide)
  have hrun : writeJoinRun wjs (fun n _ => n * 10) =
      ⟨([1, 2, 3] : List Index).foldl
          (fun acc n =>
            match joinGet acc n with
            | some old => acc.insert n (n * 10)
            | none => acc)
          wjs.data, wjs.bitset⟩ := by
    unfold writeJoinRun Storage.joinOpenMut
    dsimp only
    rw [hs]
    rfl
  refine ⟨?_, ?_, ?_, by rw [hrun], ?_⟩
  · rw [hrun]; decide
  · rw [hrun]; decide
  · rw [hrun]; decide
  · intro m h1 h2 h3
    apply writeJoinRun_data_of_not_mem
    have hb : wjs.bitset = ({1, 2, 3} : Finset ℕ) := by decide
    rw [hb]
    simp [Finset.mem_insert, Finset.mem_singleton, h1, h2, h3]

/-- Witness for C5 at a concrete input: slot 7, outside the visited set,
is unchanged by the pass. -/
theorem C5_write_join_disjoint_witness :
    ((7 : Index) ≠ 1 ∧ (7 : Index) ≠ 2 ∧ (7 : Index) ≠ 3) ∧
      (writeJoinRun wjs (fun n _ => n * 10)).data 7 = wjs.data 7 :=
  ⟨⟨by decide, by decide, by decide⟩,
    C5_write_join_disjoint.2.2.2.2 7 (by decide) (by decide) (by decide)⟩

/-! ### Claim C1: the presence invariant over operation sequences -/

theorem run_concat [Id I] (s : Storage C I) (ops : List (Op C I)) (op : Op C I) :
    s.run (ops ++ [op]) = (s.run ops).step op := by
  unfold Storage.run
  rw [List.foldl_append]
  rfl

theorem liveSpec_concat_insAt [Id I] {n : Index} {op : Op C I}
    (ops : List (Op C I)) (h : insAt n op) : liveSpec (ops ++ [op]) n := by
  refine ⟨ops.length, by simp, ?_, ?_⟩
  · rw [List.getElem_concat_length ops op ops.length rfl]
    exact h
  · intro k hk hlt
    exfalso
    simp only [List.length_append, List.length_cons, List.length_nil] at hk
    omega

theorem liveSpec_concat_remAt [Id I] {n : Index} {op : Op C I}
    (ops : List (Op C I)) (hrem : remAt n op) (hins : ¬ insAt n op) :
    ¬ liveSpec (ops ++ [op]) n := by
  rintro ⟨j, hj, hjins, hall⟩
  have hj1 : j < ops.length + 1 := by simpa using hj
  by_cases hje : j = ops.length
  · subst hje
    rw [List.getElem_concat_length ops op _ rfl] at hjins
    exact hins hjins
  · have hjl : j < ops.length := by omega
    have hcall := hall ops.length (by simp) hjl
    rw [List.getElem_concat_length ops op _ rfl] at hcall
    exact hcall hrem

theorem liveSpec_concat_untouched [Id I] {n : Index} {op : Op C I}
    (ops : List (Op C I)) (hins : ¬ insAt n op) (hrem : ¬ remAt n op) :
    liveSpec (ops ++ [op]) n ↔ liveSpec ops n := by
  constructor
  · rintro ⟨j, hj, hjins, hall⟩
    have hj1 : j < ops.length + 1 := by simpa using hj
    by_cases hje : j = ops.length
    · subst hje
      rw [List.getElem_concat_length ops op _ rfl] at hjins
      exact absurd hjins hins
    · have hjl : j < ops.length := by omega
      refine ⟨j, hjl, ?_, ?_⟩
      · rwa [List.getElem_append_left hjl] at hjins
      · intro k hk hlt
        have hk1 : k < (ops ++ [op]).length := by
          simp only [List.length_append, List.length_cons, List.length_nil]
          omega
        have hcall := hall k hk1 hlt
        rwa [List.getElem_append_left hk] at hcall
  · rintro ⟨j, hj, hjins, hall⟩
    refine ⟨j, ?_, ?_, ?_⟩
    · simp only [List.length_append, List.length_cons, List.length_nil]
      omega
    · rwa [List.getElem_append_left hj]
    · intro k hk hlt
      have hk1 : k < ops.length + 1 := by simpa using hk
      by_cases hke : k = ops.length
      · subst hke
        rw [List.getElem_concat_length ops op _ rfl]
        exact hrem
      · have hkl : k < ops.length := by omega
        have hcall := hall k hkl hlt
        rwa [List.getElem_append_left hkl]

theorem mem_bitset_run_iff [Id I] (ops : List (Op C I)) (n : Index) :
    n ∈ ((Storage.empty : Storage C I).run ops).bitset ↔ liveSpec ops n := by
  induction ops using List.reverseRecOn with
  | nil =>
    constructor
    · intro h
      exact absurd h (Finset.not_mem_empty n)
    · rintro ⟨j, hj, -, -⟩
      exact absurd hj (by simp)
  | append_singleton ops op ih =>
    rw [run_concat]
    cases op with
    | insert i v =>
      simp only [Storage.step, Storage.insert_bitset]
      by_cases hn : Id.id i = n
      · exact iff_of_true (hn ▸ Finset.mem_insert_self _ _)
          (liveSpec_concat_insAt ops hn)
      · rw [Finset.mem_insert]
        have hne : ¬ (n = Id.id i) := fun he => hn he.symm
        simp only [hne, false_or]
        rw [ih]
        refine (liveSpec_concat_untouched ops ?_ ?_).symm
        · intro hx
          exact hn hx
        · intro hx
          exact hx
    | remove i =>
      simp only [Storage.step, Storage.remove_bitset]
      by_cases hn : Id.id i = n
      · refine iff_of_false ?_ (liveSpec_concat_remAt ops hn (fun h => h))
        rw [hn]
        exact Finset.not_mem_erase n _
      · rw [Finset.mem_erase]
        have hne : n ≠ Id.id i := fun he => hn he.symm
        simp only [hne, ne_eq, not_false_iff, true_and]
        rw [ih]
        refine (liveSpec_concat_untouched ops ?_ ?_).symm
        · intro hx
          exact hx
        · intro hx
          exact hn hx
    | get i =>
      rw [show ((Storage.empty : Storage C I).run ops).step (Op.get i) =
          (Storage.empty : Storage C I).run ops from rfl, ih]
      refine (liveSpec_concat_untouched ops ?_ ?_).symm
      · intro hx
        exact hx
      · intro hx
        exact hx
    | get_mut i =>
      rw [show ((Storage.empty : Storage C I).run ops).step (Op.get_mut i) =
          (Storage.empty : Storage C I).run ops from rfl, ih]
      refine (liveSpec_concat_untouched ops ?_ ?_).symm
      · intro hx
        exact hx
      · intro hx
        exact hx

theorem stateInv_empty : StateInv (Storage.empty : Storage C I) :=
  fun n h => absurd h (Finset.not_mem_empty n)

theorem stateInv_step [Id I] {s : Storage C I} (h : StateInv s) (op : Op C I) :
    StateInv (s.step op) := by
  cases op with
  | insert i v =>
    intro n hn
    simp only [Storage.step] at hn ⊢
    rw [Storage.insert_data]
    by_cases hni : n = Id.id i
    · simp [hni]
    · simp only [hni, if_false]
      rw [Storage.insert_bitset, Finset.mem_insert] at hn
      exact h n (hn.resolve_left hni)
  | remove i =>
    intro n hn
    simp only [Storage.step] at hn ⊢
    rw [Storage.remove_bitset, Finset.mem_erase] at hn
    rw [Storage.remove_data]
    have hno : ¬ (Id.id i ∈ s.bitset ∧ n = Id.id i) := fun hc => hn.1 hc.2
    simp only [hno, if_false]
    exact h n hn.2
  | get i => exact h
  | get_mut i => exact h

theorem stateInv_run [Id I] {s : Storage C I} (h : StateInv s)
    (ops : List (Op C I)) : StateInv (s.run ops) := by
  induction ops generalizing s with
  | nil => exact h
  | cons op ops ih => exact ih (stateInv_step h op)

theorem get_isSome_iff [Id I] {s : Storage C I} (h : StateInv s) (i : I) :
    (s.get i).isSome = true ↔ Id.id i ∈ s.bitset := by
  rw [Storage.get_eq]
  by_cases hm : Id.id i ∈ s.bitset
  · simpa [hm] using h _ hm
  · simp [hm]

/-- C1: for every identifier `i` and every finite sequence of public
operations (insert/remove/get/get_mut) on a default-constructed storage,
`get(i)` returns `Some` exactly when some insert for an identifier with
the same `u32` index as `i` has occurred and the most recent such insert
has not been followed by a remove for that index (`liveSpec`). -/
theorem C1_presence_invariant [Id I] (ops : List (Op C I)) (i : I) :
    (((Storage.empty : Storage C I).run ops).get i).isSome = true ↔
      liveSpec ops (Id.id i) := by
  rw [get_isSome_iff (stateInv_run stateInv_empty ops) i]
  exact mem_bitset_run_iff ops (Id.id i)

end SpecsStatic
